import Mathlib

/-!
Verification of augur/util/inspect_without_import.py.

The module under verification reads a Python source file as text, parses it
into an abstract syntax tree with ast.parse, walks every node of the tree
with ast.walk, and collects the names of FunctionDef and AsyncFunctionDef
nodes whose name ends with the literal "_phase".

The embedding below mirrors that pipeline:
  - Stmt models the statement-level nodes of the Python AST that can carry
    or enclose function definitions.
  - childNodes models the statement children yielded by ast.iter_child_nodes
    (expression children are omitted: no Python expression node can contain a
    FunctionDef or AsyncFunctionDef statement, so they contribute nothing to
    the collected names and do not change the relative order of statements).
  - walkFrom models the breadth-first queue loop of ast.walk.
  - phaseNamesOfTree models the for-loop of get_phase_names_without_import.
  - get_phase_names_without_import models the whole function, with the
    filesystem read and the parser passed in as explicit functions, and an
    explicit error type holding the two exceptions the function wraps as
    well as read exceptions no except clause catches, which propagate
    unwrapped.
-/

namespace Augur

/-- Statement-level nodes of the Python abstract syntax tree, as produced by
ast.parse. A module is a list of such statements. The constructors mirror
ast.FunctionDef, ast.AsyncFunctionDef, ast.ClassDef, ast.If, ast.Assign (with
a single name target), ast.Pass and ast.Expr. -/
inductive Stmt : Type where
  | functionDef (name : String) (body : List Stmt) : Stmt
  | asyncFunctionDef (name : String) (body : List Stmt) : Stmt
  | classDef (name : String) (body : List Stmt) : Stmt
  | ifStmt (body orelse : List Stmt) : Stmt
  | assign (target : String) : Stmt
  | passStmt : Stmt
  | exprStmt : Stmt
deriving Repr

/-- The statement children of a statement node, in document order: the
statement-bearing fields yielded by ast.iter_child_nodes. For ast.If the
body precedes the orelse branch, matching the field order of the node. -/
def childNodes : Stmt → List Stmt
  | .functionDef _ body => body
  | .asyncFunctionDef _ body => body
  | .classDef _ body => body
  | .ifStmt body orelse => body ++ orelse
  | .assign _ => []
  | .passStmt => []
  | .exprStmt => []

mutual
/-- Number of statement nodes in the subtree rooted at a statement. -/
def stmtSize : Stmt → Nat
  | .functionDef _ b => 1 + stmtsSize b
  | .asyncFunctionDef _ b => 1 + stmtsSize b
  | .classDef _ b => 1 + stmtsSize b
  | .ifStmt b o => 1 + stmtsSize b + stmtsSize o
  | .assign _ => 1
  | .passStmt => 1
  | .exprStmt => 1
/-- Number of statement nodes in a forest of statements. -/
def stmtsSize : List Stmt → Nat
  | [] => 0
  | s :: rest => stmtSize s + stmtsSize rest
end

theorem stmtsSize_append (l₁ l₂ : List Stmt) :
    stmtsSize (l₁ ++ l₂) = stmtsSize l₁ + stmtsSize l₂ := by
  induction l₁ with
  | nil => simp [stmtsSize]
  | cons s rest ih => simp [stmtsSize, ih]; omega

theorem stmtSize_eq_one_add (s : Stmt) :
    stmtSize s = 1 + stmtsSize (childNodes s) := by
  cases s <;> simp [childNodes, stmtSize, stmtsSize, stmtsSize_append, Nat.add_assoc]

theorem childNodes_size_lt (s : Stmt) : stmtsSize (childNodes s) < stmtSize s := by
  rw [stmtSize_eq_one_add s]; omega

/-- The queue loop of ast.walk: pop the head of the queue, yield it, and
push its children at the back of the queue (breadth-first order). The Nat
argument is explicit fuel; walkFrom always supplies exactly the number of
nodes reachable from the queue, which walkFrom_nil and walkFrom_cons prove
makes walkAux satisfy the exact recurrence of the ast.walk loop. -/
def walkAux : Nat → List Stmt → List Stmt
  | _, [] => []
  | 0, _ :: _ => []
  | fuel + 1, n :: rest => n :: walkAux fuel (rest ++ childNodes n)

/-- All nodes reachable from the queue, in the breadth-first order in which
ast.walk yields them. walkFrom tree (for tree the statement list of a parsed
module) is the subsequence of statement nodes of ast.walk on that module. -/
def walkFrom (q : List Stmt) : List Stmt := walkAux (stmtsSize q) q

theorem walkFrom_nil : walkFrom [] = [] := rfl

theorem walkFrom_cons (n : Stmt) (rest : List Stmt) :
    walkFrom (n :: rest) = n :: walkFrom (rest ++ childNodes n) := by
  show walkAux (stmtsSize (n :: rest)) (n :: rest) =
    n :: walkAux (stmtsSize (rest ++ childNodes n)) (rest ++ childNodes n)
  have key : stmtsSize (n :: rest) = stmtsSize (rest ++ childNodes n) + 1 := by
    rw [stmtsSize_append]
    show stmtSize n + stmtsSize rest = _
    rw [stmtSize_eq_one_add n]
    omega
  rw [key]
  rfl

/-- Python str.endswith: the second string is a suffix of the first. -/
def pyEndsWith (s pat : String) : Bool := pat.data.isSuffixOf s.data

/-- The body of the collection loop in get_phase_names_without_import:
a node contributes its name exactly when it is an ast.FunctionDef or
ast.AsyncFunctionDef and its name ends with the literal "_phase". -/
def phaseNameOf : Stmt → Option String
  | .functionDef name _ =>
      if pyEndsWith name "_phase" then some name else none
  | .asyncFunctionDef name _ =>
      if pyEndsWith name "_phase" then some name else none
  | _ => none

/-- Lines 56 to 65 of the source: walk every node of the tree and append the
name of every matching function definition, in walk order. -/
def phaseNamesOfTree (tree : List Stmt) : List String :=
  (walkFrom tree).filterMap phaseNameOf

/-- A filesystem path, as its list of components. -/
abbrev Path : Type := List String

/-- Rendering of a path into the text that str(Path) interpolates into the
error message. -/
def pathToString (p : Path) : String := String.intercalate "/" p

/-- Lines 38 to 40 of the source: the default source path is
Path(__FILE__).resolve().parent.parent / "tasks" / "start_tasks.py", where
moduleFile is the resolved location of the extractor module itself. -/
def defaultStartTasksPath (moduleFile : Path) : Path :=
  (List.dropLast (List.dropLast moduleFile)) ++ ["tasks", "start_tasks.py"]

/-- The source path actually read: the argument when one is given, the
default start_tasks.py path otherwise. -/
def resolveSourcePath (moduleFile : Path) : Option Path → Path
  | none => defaultStartTasksPath moduleFile
  | some p => p

/-- The exceptions Path.read_text can raise, by kind: FileNotFoundError for
a path that does not exist, and any other exception (for example
PermissionError on an existing but unreadable file), each carrying its
message. The kind matters because the source catches only
FileNotFoundError. -/
inductive ReadError : Type where
  | fileNotFound (message : String) : ReadError
  | permissionError (message : String) : ReadError
deriving Repr, DecidableEq

/-- The errors a call can end in: the wrapped FileNotFoundError and the
wrapped SyntaxError raised by the function itself, each carrying the
wrapping message it builds and the underlying error it was raised from
(the `from e` chain), and a read exception of any other kind, which no
except clause of the function catches and which therefore propagates to
the caller unwrapped. -/
inductive ExtractError : Type where
  | fileNotFound (message : String) (cause : ReadError) : ExtractError
  | invalidSyntax (message : String) (cause : String) : ExtractError
  | uncaughtRead (e : ReadError) : ExtractError
deriving Repr, DecidableEq

/-- An error is the wrapped not-found error raised by line 45 of the
source. -/
def ExtractError.isFileNotFound : ExtractError → Bool
  | .fileNotFound _ _ => true
  | _ => false

/-- The function get_phase_names_without_import. The filesystem read
(Path.read_text) and the parser (ast.parse) are passed as explicit
functions; each returns either its result or the exception it raises.
The `except FileNotFoundError` clause of lines 44 to 47 catches exactly
the fileNotFound kind and re-raises it wrapped; a read failure of any
other kind matches no except clause and propagates unwrapped. moduleFile
is the resolved location of the extractor module, used only for the
default path. -/
def get_phase_names_without_import
    (readText : Path → Except ReadError String)
    (astParse : String → Except String (List Stmt))
    (moduleFile : Path) (source_path : Option Path) :
    Except ExtractError (List String) :=
  let sp : Path := resolveSourcePath moduleFile source_path
  match readText sp with
  | Except.error (ReadError.fileNotFound msg) =>
      Except.error (ExtractError.fileNotFound
        ("We couldn\x27t find the source file at " ++ pathToString sp)
        (ReadError.fileNotFound msg))
  | Except.error e => Except.error (ExtractError.uncaughtRead e)
  | Except.ok source_code =>
      match astParse source_code with
      | Except.error e =>
          Except.error (ExtractError.invalidSyntax
            ("The file exists, but it contains invalid Python syntax: " ++ e) e)
      | Except.ok tree => Except.ok (phaseNamesOfTree tree)

/-- A node is a function-like declaration: ast.FunctionDef or
ast.AsyncFunctionDef. -/
def isFunctionLike : Stmt → Bool
  | .functionDef _ _ => true
  | .asyncFunctionDef _ _ => true
  | _ => false

/-- The identifier attached to a named node: the name of a function, class
or single-target assignment. -/
def stmtIdent : Stmt → Option String
  | .functionDef name _ => some name
  | .asyncFunctionDef name _ => some name
  | .classDef name _ => some name
  | .assign target => some target
  | .passStmt => none
  | .exprStmt => none
  | .ifStmt _ _ => none

/-- A statement occurs somewhere in a forest of statements: either as one of
its roots, or nested anywhere below one of its roots. -/
inductive InTree : Stmt → List Stmt → Prop where
  | here {t : Stmt} {l : List Stmt} : t ∈ l → InTree t l
  | nested {t s : Stmt} {l : List Stmt} :
      s ∈ l → InTree t (childNodes s) → InTree t l

mutual
/-- Depth-first, top-to-bottom document order of the statement nodes of a
subtree. This definition follows the words of the specification sentence
"Result order matches declaration order in the source document": a node
appears before everything nested under it, and nested nodes appear before
any later sibling of their parent. -/
def dfsStmt : Stmt → List Stmt
  | .functionDef name b => .functionDef name b :: dfsStmts b
  | .asyncFunctionDef name b => .asyncFunctionDef name b :: dfsStmts b
  | .classDef name b => .classDef name b :: dfsStmts b
  | .ifStmt b o => .ifStmt b o :: (dfsStmts b ++ dfsStmts o)
  | .assign target => [.assign target]
  | .passStmt => [.passStmt]
  | .exprStmt => [.exprStmt]
/-- Document order of all statement nodes of a forest. -/
def dfsStmts : List Stmt → List Stmt
  | [] => []
  | s :: rest => dfsStmt s ++ dfsStmts rest
end

/-- Modelled from the spec: the phase names of a module in source-document
order. This is the order the specification sentence for claim C2 asserts,
to be compared with phaseNamesOfTree which follows the code. -/
def specDocumentOrderNames (tree : List Stmt) : List String :=
  (dfsStmts tree).filterMap phaseNameOf

theorem InTree_nil (t : Stmt) : ¬ InTree t [] := by
  intro h
  cases h with
  | here hm => exact List.not_mem_nil t hm
  | nested hm _ => exact List.not_mem_nil _ hm

theorem InTree_cons (t s : Stmt) (l : List Stmt) :
    InTree t (s :: l) ↔ t = s ∨ InTree t (childNodes s) ∨ InTree t l := by
  constructor
  · intro h
    cases h with
    | here hm =>
        rcases List.mem_cons.mp hm with h | h
        · exact Or.inl h
        · exact Or.inr (Or.inr (InTree.here h))
    | nested hm hsub =>
        rcases List.mem_cons.mp hm with h | h
        · subst h
          exact Or.inr (Or.inl hsub)
        · exact Or.inr (Or.inr (InTree.nested h hsub))
  · rintro (rfl | h | h)
    · exact InTree.here (List.mem_cons_self _ _)
    · exact InTree.nested (List.mem_cons_self _ _) h
    · cases h with
      | here hm => exact InTree.here (List.mem_cons_of_mem _ hm)
      | nested hm hsub => exact InTree.nested (List.mem_cons_of_mem _ hm) hsub

theorem InTree_append (t : Stmt) (l₁ l₂ : List Stmt) :
    InTree t (l₁ ++ l₂) ↔ InTree t l₁ ∨ InTree t l₂ := by
  constructor
  · intro h
    cases h with
    | here hm =>
        rcases List.mem_append.mp hm with h | h
        · exact Or.inl (InTree.here h)
        · exact Or.inr (InTree.here h)
    | nested hm hsub =>
        rcases List.mem_append.mp hm with h | h
        · exact Or.inl (InTree.nested h hsub)
        · exact Or.inr (InTree.nested h hsub)
  · rintro (h | h)
    · cases h with
      | here hm => exact InTree.here (List.mem_append.mpr (Or.inl hm))
      | nested hm hsub => exact InTree.nested (List.mem_append.mpr (Or.inl hm)) hsub
    · cases h with
      | here hm => exact InTree.here (List.mem_append.mpr (Or.inr hm))
      | nested hm hsub => exact InTree.nested (List.mem_append.mpr (Or.inr hm)) hsub

theorem mem_walkFrom (q : List Stmt) (t : Stmt) : t ∈ walkFrom q ↔ InTree t q := by
  generalize hn : stmtsSize q = n
  induction n using Nat.strong_induction_on generalizing q with
  | _ n ih =>
    cases q with
    | nil =>
        rw [walkFrom_nil]
        exact ⟨fun h => absurd h (List.not_mem_nil t), fun h => absurd h (InTree_nil t)⟩
    | cons s rest =>
        have hsz : stmtsSize (rest ++ childNodes s) < n := by
          rw [stmtsSize_append]
          have h1 : stmtsSize (s :: rest) = stmtSize s + stmtsSize rest := rfl
          have h2 := stmtSize_eq_one_add s
          omega
        rw [walkFrom_cons, List.mem_cons, InTree_cons,
          ih _ hsz _ rfl, InTree_append]
        tauto

theorem dfsStmts_append (l₁ l₂ : List Stmt) :
    dfsStmts (l₁ ++ l₂) = dfsStmts l₁ ++ dfsStmts l₂ := by
  induction l₁ with
  | nil => simp [dfsStmts]
  | cons s rest ih => simp [dfsStmts, ih]

theorem dfsStmt_eq (s : Stmt) : dfsStmt s = s :: dfsStmts (childNodes s) := by
  cases s <;> simp [dfsStmt, childNodes, dfsStmts, dfsStmts_append]

theorem mem_dfsStmts (l : List Stmt) (t : Stmt) : t ∈ dfsStmts l ↔ InTree t l := by
  generalize hn : stmtsSize l = n
  induction n using Nat.strong_induction_on generalizing l with
  | _ n ih =>
    cases l with
    | nil =>
        exact ⟨fun h => absurd h (List.not_mem_nil t), fun h => absurd h (InTree_nil t)⟩
    | cons s rest =>
        have h1 : stmtsSize (s :: rest) = stmtSize s + stmtsSize rest := rfl
        have h2 := stmtSize_eq_one_add s
        have hszc : stmtsSize (childNodes s) < n := by omega
        have hszr : stmtsSize rest < n := by
          have := childNodes_size_lt s
          omega
        show t ∈ dfsStmt s ++ dfsStmts rest ↔ _
        rw [dfsStmt_eq, List.mem_append, List.mem_cons,
          ih _ hszc _ rfl, ih _ hszr _ rfl, InTree_cons]
        tauto

theorem mem_phaseNamesOfTree (tree : List Stmt) (n : String) :
    n ∈ phaseNamesOfTree tree ↔ ∃ s, s ∈ walkFrom tree ∧ phaseNameOf s = some n := by
  simp [phaseNamesOfTree, List.mem_filterMap]

theorem phaseNameOf_eq_some (s : Stmt) (n : String) :
    phaseNameOf s = some n ↔
      isFunctionLike s = true ∧ stmtIdent s = some n ∧ pyEndsWith n "_phase" = true := by
  cases s <;> simp [phaseNameOf, isFunctionLike, stmtIdent] <;> aesop

theorem filterMap_walkFrom_of_no_nested (q : List Stmt)
    (h : ∀ s ∈ q, ∀ t, InTree t (childNodes s) → phaseNameOf t = none) :
    (walkFrom q).filterMap phaseNameOf = q.filterMap phaseNameOf := by
  generalize hn : stmtsSize q = n
  induction n using Nat.strong_induction_on generalizing q with
  | _ n ih =>
    cases q with
    | nil => rw [walkFrom_nil]
    | cons s rest =>
        have hsz : stmtsSize (rest ++ childNodes s) < n := by
          rw [stmtsSize_append]
          have h1 : stmtsSize (s :: rest) = stmtSize s + stmtsSize rest := rfl
          have h2 := stmtSize_eq_one_add s
          omega
        have hrec : (walkFrom (rest ++ childNodes s)).filterMap phaseNameOf =
            rest.filterMap phaseNameOf := by
          rw [ih _ hsz _ ?_ rfl]
          · rw [List.filterMap_append]
            have hchild : (childNodes s).filterMap phaseNameOf = [] :=
              List.filterMap_eq_nil_iff.mpr
                (fun c hc => h s (List.mem_cons_self _ _) c (InTree.here hc))
            rw [hchild, List.append_nil]
          · intro u hu t ht
            rcases List.mem_append.mp hu with hu | hu
            · exact h u (List.mem_cons_of_mem _ hu) t ht
            · exact h s (List.mem_cons_self _ _) t (InTree.nested hu ht)
        rw [walkFrom_cons, List.filterMap_cons, List.filterMap_cons, hrec]

theorem filterMap_dfsStmts_of_no_nested (q : List Stmt)
    (h : ∀ s ∈ q, ∀ t, InTree t (childNodes s) → phaseNameOf t = none) :
    (dfsStmts q).filterMap phaseNameOf = q.filterMap phaseNameOf := by
  generalize hn : stmtsSize q = n
  induction n using Nat.strong_induction_on generalizing q with
  | _ n ih =>
    cases q with
    | nil => rfl
    | cons s rest =>
        have h1 : stmtsSize (s :: rest) = stmtSize s + stmtsSize rest := rfl
        have h2 := stmtSize_eq_one_add s
        have hszr : stmtsSize rest < n := by
          have := childNodes_size_lt s
          omega
        have hchild : (dfsStmts (childNodes s)).filterMap phaseNameOf = [] :=
          List.filterMap_eq_nil_iff.mpr
            (fun c hc => h s (List.mem_cons_self _ _) c ((mem_dfsStmts _ c).mp hc))
        have hrest : (dfsStmts rest).filterMap phaseNameOf = rest.filterMap phaseNameOf :=
          ih _ hszr _ (fun u hu t ht => h u (List.mem_cons_of_mem _ hu) t ht) rfl
        show ((dfsStmt s ++ dfsStmts rest).filterMap phaseNameOf) = _
        rw [dfsStmt_eq, List.filterMap_append, List.filterMap_cons, List.filterMap_cons,
          hchild, hrest]
        cases phaseNameOf s <;> simp

/-- C1: for every parsed module, the phase-name list contains a string
exactly when some node of the walk is a function-like declaration
(FunctionDef or AsyncFunctionDef) carrying that identifier and the
identifier ends with the literal "_phase"; in particular a name where
"_phase" occurs only mid-identifier, a variable binding and a class
declaration are never included, as the concrete module in the second
conjunct shows. -/
theorem claim1_exact_suffix_characterization :
    (∀ (tree : List Stmt) (n : String),
        n ∈ phaseNamesOfTree tree ↔
          ∃ s, s ∈ walkFrom tree ∧ isFunctionLike s = true ∧
            stmtIdent s = some n ∧ pyEndsWith n "_phase" = true) ∧
    phaseNamesOfTree
      [Stmt.functionDef "build_primary_phase_request" [Stmt.passStmt],
       Stmt.assign "this_is_a_variable_phase",
       Stmt.classDef "Config_phase" [Stmt.passStmt]] = [] := by
  constructor
  · intro tree n
    rw [mem_phaseNamesOfTree]
    constructor
    · rintro ⟨s, hs, hname⟩
      have := (phaseNameOf_eq_some s n).mp hname
      exact ⟨s, hs, this.1, this.2.1, this.2.2⟩
    · rintro ⟨s, hs, h1, h2, h3⟩
      exact ⟨s, hs, (phaseNameOf_eq_some s n).mpr ⟨h1, h2, h3⟩⟩
  · rfl

/-- Module with a later top-level phase function and an earlier phase
function nested inside another function, used to separate walk order from
document order. It models the source text
def outer(): def inner_a_phase(): pass
def later_phase(): pass. -/
def nestedOrderExample : List Stmt :=
  [Stmt.functionDef "outer" [Stmt.functionDef "inner_a_phase" [Stmt.passStmt]],
   Stmt.functionDef "later_phase" [Stmt.passStmt]]

/-- C2 counterexample: ast.walk is breadth-first, so on a module where a
phase function nested inside an earlier function precedes a later top-level
phase function, the code lists the top-level name first, while document
order lists the nested name first; the two orders differ. -/
theorem claim2_walk_order_counterexample :
    phaseNamesOfTree nestedOrderExample = ["later_phase", "inner_a_phase"] ∧
    specDocumentOrderNames nestedOrderExample = ["inner_a_phase", "later_phase"] ∧
    phaseNamesOfTree nestedOrderExample ≠ specDocumentOrderNames nestedOrderExample :=
  ⟨rfl, rfl, by decide⟩

/-- C2 amended: the order of the returned names matches the top-to-bottom
document order of the declarations whenever no matching declaration is
nested below a top-level statement; with such nesting, the breadth-first
walk lists shallower declarations before deeper ones regardless of their
document position. -/
theorem claim2_amended_document_order (tree : List Stmt)
    (h : ∀ s ∈ tree, ∀ t, InTree t (childNodes s) → phaseNameOf t = none) :
    phaseNamesOfTree tree = specDocumentOrderNames tree := by
  show (walkFrom tree).filterMap phaseNameOf = (dfsStmts tree).filterMap phaseNameOf
  rw [filterMap_walkFrom_of_no_nested tree h, filterMap_dfsStmts_of_no_nested tree h]

/-- Flat module of the specification scenario with four top-level function
definitions, two of which are phase functions. -/
def flatScenarioExample : List Stmt :=
  [Stmt.functionDef "prelim_phase" [Stmt.passStmt],
   Stmt.functionDef "helper_function" [Stmt.passStmt],
   Stmt.functionDef "secondary_collect_phase" [Stmt.passStmt],
   Stmt.functionDef "not_a_phase_at_all" [Stmt.passStmt]]

/-- C2 witness: the amended order theorem applied to the flat scenario
module, on which the walk order equals document order and yields the two
phase names in source order. -/
theorem claim2_amended_document_order_witness :
    phaseNamesOfTree flatScenarioExample = specDocumentOrderNames flatScenarioExample ∧
    phaseNamesOfTree flatScenarioExample = ["prelim_phase", "secondary_collect_phase"] :=
  ⟨claim2_amended_document_order flatScenarioExample (by
      intro s hs t ht
      simp only [flatScenarioExample, List.mem_cons, List.not_mem_nil, or_false] at hs
      rcases hs with rfl | rfl | rfl | rfl <;>
      · simp only [childNodes] at ht
        rcases (InTree_cons t Stmt.passStmt []).mp ht with rfl | hx | hx
        · rfl
        · exact absurd hx (InTree_nil t)
        · exact absurd hx (InTree_nil t)),
   rfl⟩

/-- C3 counterexample: on an existing but unreadable path the read raises
PermissionError, which is not a FileNotFoundError, so the except clause of
lines 44 to 47 does not catch it: the call ends in the raw read exception,
propagated unwrapped, and not in a not-found error naming the path — the
claim fails on its not-readable branch. -/
theorem claim3_unreadable_path_counterexample :
    get_phase_names_without_import
      (fun _ => Except.error (ReadError.permissionError "Permission denied"))
      (fun _ => Except.ok []) ["augur", "util", "inspect_without_import.py"]
      (some ["tmp", "protected.py"]) =
      Except.error (ExtractError.uncaughtRead
        (ReadError.permissionError "Permission denied")) ∧
    (ExtractError.uncaughtRead
      (ReadError.permissionError "Permission denied")).isFileNotFound = false :=
  ⟨rfl, rfl⟩

/-- C3 amended: when the read of the requested path fails with
FileNotFoundError (the path does not exist), the function returns the
not-found wrapping error whose message is the fixed text followed by the
rendered attempted path, chained from the underlying read failure, and it
never returns a list; a read failure of any other kind, such as
PermissionError on an existing but unreadable path, propagates unwrapped. -/
theorem claim3_missing_file_error
    (readText : Path → Except ReadError String)
    (astParse : String → Except String (List Stmt))
    (moduleFile p : Path) (e : String)
    (h : readText p = Except.error (ReadError.fileNotFound e)) :
    get_phase_names_without_import readText astParse moduleFile (some p) =
      Except.error (ExtractError.fileNotFound
        ("We couldn\x27t find the source file at " ++ pathToString p)
        (ReadError.fileNotFound e)) ∧
    ∀ l : List String,
      get_phase_names_without_import readText astParse moduleFile (some p) ≠
        Except.ok l := by
  have hmain : get_phase_names_without_import readText astParse moduleFile (some p) =
      Except.error (ExtractError.fileNotFound
        ("We couldn\x27t find the source file at " ++ pathToString p)
        (ReadError.fileNotFound e)) := by
    simp [get_phase_names_without_import, resolveSourcePath, h]
  exact ⟨hmain, fun l hl => by rw [hmain] at hl; exact Except.noConfusion hl⟩

/-- C3 witness: the missing-file theorem applied to a filesystem on which
every read fails with FileNotFoundError. -/
theorem claim3_missing_file_error_witness :
    get_phase_names_without_import
      (fun _ => Except.error (ReadError.fileNotFound "No such file or directory"))
      (fun _ => Except.ok []) ["augur", "util", "inspect_without_import.py"]
      (some ["tmp", "missing.py"]) =
      Except.error (ExtractError.fileNotFound
        ("We couldn\x27t find the source file at " ++ pathToString ["tmp", "missing.py"])
        (ReadError.fileNotFound "No such file or directory")) :=
  (claim3_missing_file_error _ _ _ _ _ rfl).1

/-- C4: when the read succeeds but parsing the text fails, the function
returns the SyntaxError wrapping error whose message is the fixed text
stating the file exists but contains invalid syntax followed by the
original parser diagnostic, chained from that diagnostic, and it never
returns a list. -/
theorem claim4_invalid_source_error
    (readText : Path → Except ReadError String)
    (astParse : String → Except String (List Stmt))
    (moduleFile p : Path) (src diag : String)
    (hread : readText p = Except.ok src)
    (hp : astParse src = Except.error diag) :
    get_phase_names_without_import readText astParse moduleFile (some p) =
      Except.error (ExtractError.invalidSyntax
        ("The file exists, but it contains invalid Python syntax: " ++ diag) diag) ∧
    ∀ l : List String,
      get_phase_names_without_import readText astParse moduleFile (some p) ≠
        Except.ok l := by
  have hmain : get_phase_names_without_import readText astParse moduleFile (some p) =
      Except.error (ExtractError.invalidSyntax
        ("The file exists, but it contains invalid Python syntax: " ++ diag) diag) := by
    simp [get_phase_names_without_import, resolveSourcePath, hread, hp]
  exact ⟨hmain, fun l hl => by rw [hmain] at hl; exact Except.noConfusion hl⟩

/-- C4 witness: the invalid-source theorem applied to a readable file whose
text the parser rejects with a concrete diagnostic. -/
theorem claim4_invalid_source_error_witness :
    get_phase_names_without_import (fun _ => Except.ok "def broken(:")
      (fun _ => Except.error "invalid syntax (broken.py, line 1)")
      ["augur", "util", "inspect_without_import.py"] (some ["tmp", "broken.py"]) =
      Except.error (ExtractError.invalidSyntax
        ("The file exists, but it contains invalid Python syntax: " ++
          "invalid syntax (broken.py, line 1)")
        "invalid syntax (broken.py, line 1)") :=
  (claim4_invalid_source_error (fun _ => Except.ok "def broken(:")
    (fun _ => Except.error "invalid syntax (broken.py, line 1)")
    ["augur", "util", "inspect_without_import.py"] ["tmp", "broken.py"]
    "def broken(:" "invalid syntax (broken.py, line 1)" rfl rfl).1

/-- C5: when the file reads and parses and no node of the walk is a
matching phase declaration, the function returns the empty list and no
error. -/
theorem claim5_no_matches_empty_result
    (readText : Path → Except ReadError String)
    (astParse : String → Except String (List Stmt))
    (moduleFile p : Path) (src : String) (tree : List Stmt)
    (hread : readText p = Except.ok src)
    (hp : astParse src = Except.ok tree)
    (hnone : ∀ s ∈ walkFrom tree, phaseNameOf s = none) :
    get_phase_names_without_import readText astParse moduleFile (some p) =
      Except.ok [] := by
  simp [get_phase_names_without_import, resolveSourcePath, hread, hp, phaseNamesOfTree,
    List.filterMap_eq_nil_iff.mpr hnone]

/-- C5 witness: the empty-result theorem applied to a completely empty file
(empty text, empty module) and to a file whose declarations are a variable
binding with a matching-looking name and a non-matching helper function. -/
theorem claim5_no_matches_empty_result_witness :
    get_phase_names_without_import (fun _ => Except.ok "")
      (fun _ => Except.ok []) ["augur", "util", "inspect_without_import.py"]
      (some ["tmp", "empty.py"]) = Except.ok [] ∧
    get_phase_names_without_import
      (fun _ => Except.ok "this_is_a_variable_phase = 1\ndef helper_function(): pass")
      (fun _ => Except.ok [Stmt.assign "this_is_a_variable_phase",
        Stmt.functionDef "helper_function" [Stmt.passStmt]])
      ["augur", "util", "inspect_without_import.py"] (some ["tmp", "no_phases.py"]) =
      Except.ok [] :=
  ⟨claim5_no_matches_empty_result _ _ _ _ _ _ rfl rfl (by decide),
   claim5_no_matches_empty_result _ _ _ _ _ _ rfl rfl (by decide)⟩

/-- C6: an AsyncFunctionDef is matched by exactly the same predicate as a
FunctionDef with the same name, and the two-function scenario with one
async and one plain phase function yields both names in order. -/
theorem claim6_async_def_same_as_def :
    (∀ (n : String) (b₁ b₂ : List Stmt),
        phaseNameOf (Stmt.asyncFunctionDef n b₁) = phaseNameOf (Stmt.functionDef n b₂)) ∧
    phaseNamesOfTree [Stmt.asyncFunctionDef "async_phase" [Stmt.passStmt],
        Stmt.functionDef "sync_phase" [Stmt.passStmt]] = ["async_phase", "sync_phase"] :=
  ⟨fun _ _ _ => rfl, rfl⟩

/-- C7: with no path argument the function reads the fixed default path,
obtained from the resolved location of the extractor module by going up two
directories and descending into tasks/start_tasks.py, and behaves exactly
as if that path had been passed explicitly. -/
theorem claim7_default_path_resolution
    (readText : Path → Except ReadError String)
    (astParse : String → Except String (List Stmt)) (moduleFile : Path) :
    resolveSourcePath moduleFile none =
      (List.dropLast (List.dropLast moduleFile)) ++ ["tasks", "start_tasks.py"] ∧
    get_phase_names_without_import readText astParse moduleFile none =
      get_phase_names_without_import readText astParse moduleFile
        (some (defaultStartTasksPath moduleFile)) :=
  ⟨rfl, rfl⟩

/-- C8: the result of a call depends only on what the read of the resolved
source path returns: two calls whose filesystem reads agree on that path
(for the same parser) return equal results, whatever the filesystems do on
every other path. The embedding is a pure function, so a call has no state
to mutate and equal arguments always give equal results. -/
theorem claim8_result_determined_by_read_content
    (readText₁ readText₂ : Path → Except ReadError String)
    (astParse : String → Except String (List Stmt))
    (moduleFile : Path) (source_path : Option Path)
    (h : readText₁ (resolveSourcePath moduleFile source_path) =
      readText₂ (resolveSourcePath moduleFile source_path)) :
    get_phase_names_without_import readText₁ astParse moduleFile source_path =
      get_phase_names_without_import readText₂ astParse moduleFile source_path := by
  simp only [get_phase_names_without_import]
  rw [h]

/-- C8 witness: two filesystems that agree on the requested file but differ
everywhere else give the same result. -/
theorem claim8_result_determined_by_read_content_witness :
    ((fun p : Path => if p = ["pkg", "mod.py"] then Except.ok "def a_phase(): pass"
        else Except.error (ReadError.permissionError "Permission denied")) (resolveSourcePath
          ["augur", "util", "inspect_without_import.py"] (some ["pkg", "mod.py"])) =
      (fun _ : Path => (Except.ok "def a_phase(): pass" : Except ReadError String))
        (resolveSourcePath ["augur", "util", "inspect_without_import.py"]
          (some ["pkg", "mod.py"]))) ∧
    get_phase_names_without_import
      (fun p => if p = ["pkg", "mod.py"] then Except.ok "def a_phase(): pass"
        else Except.error (ReadError.permissionError "Permission denied"))
      (fun _ => Except.ok [Stmt.functionDef "a_phase" [Stmt.passStmt]])
      ["augur", "util", "inspect_without_import.py"] (some ["pkg", "mod.py"]) =
    get_phase_names_without_import
      (fun _ => Except.ok "def a_phase(): pass")
      (fun _ => Except.ok [Stmt.functionDef "a_phase" [Stmt.passStmt]])
      ["augur", "util", "inspect_without_import.py"] (some ["pkg", "mod.py"]) :=
  ⟨rfl, claim8_result_determined_by_read_content _ _ _ _ _ rfl⟩

/-- C9: a function-like declaration with a matching name that occurs
anywhere in the tree, at any nesting depth, contributes its name to the
result, because the walk visits every node. -/
theorem claim9_nested_declarations_included
    (tree : List Stmt) (s : Stmt) (n : String)
    (hs : InTree s tree) (hname : phaseNameOf s = some n) :
    n ∈ phaseNamesOfTree tree :=
  (mem_phaseNamesOfTree tree n).mpr ⟨s, (mem_walkFrom tree s).mpr hs, hname⟩

/-- C9 witness: a method defined inside a class body and a function defined
inside another function are both included. -/
theorem claim9_nested_declarations_included_witness :
    "method_phase" ∈ phaseNamesOfTree
      [Stmt.classDef "Facade" [Stmt.functionDef "method_phase" [Stmt.passStmt]]] ∧
    "inner_phase" ∈ phaseNamesOfTree
      [Stmt.functionDef "outer_function" [Stmt.functionDef "inner_phase" [Stmt.passStmt]]] :=
  ⟨claim9_nested_declarations_included _ _ _
      (InTree.nested (List.mem_cons_self _ _) (InTree.here (List.mem_cons_self _ _))) rfl,
   claim9_nested_declarations_included _ _ _
      (InTree.nested (List.mem_cons_self _ _) (InTree.here (List.mem_cons_self _ _))) rfl⟩

/-- C10: the bare identifier "_phase" ends with "_phase", so a function with
that exact name is included in the result. -/
theorem claim10_exact_suffix_name_included :
    pyEndsWith "_phase" "_phase" = true ∧
    phaseNamesOfTree [Stmt.functionDef "_phase" [Stmt.passStmt]] = ["_phase"] :=
  ⟨rfl, rfl⟩

end Augur
